import Mathlib

unseal Rat.add Rat.mul Rat.sub Rat.inv

/-!
Shallow embedding of the `acas` computer-algebra core (expression model,
canonical order, simplifier, parser front end and LaTeX printer), together
with theorems settling the specification claims about it.

Machine integers: the Rust code uses arbitrary-precision `BigInt` /
`BigRational`, embedded here as `ℤ` / `ℚ`.  Fallible code returns
`Except`; Rust panics (`unreachable!`, `expect`, `todo!`, `assert!`) are
embedded as the distinguished error `SimpErr.panicked`, kept separate from
the arithmetic error `Undefined` (`SimpErr.undefined`).  Recursion whose
termination the Rust code does not establish is embedded with an explicit
fuel parameter; exhausting fuel yields `SimpErr.outOfFuel`, distinct from
both errors, so a theorem concluding `panicked` or `ok` really reflects
what the code does.
-/

/-- Error outcomes of the embedded computation: `undefined` models the
`Undefined` arithmetic error value, `panicked` models a Rust panic
(`unreachable!` / `expect` / `todo!` / failed `assert!`), and `outOfFuel`
is the artefact of the fuel-based embedding, never produced by the code. -/
inductive SimpErr : Type where
  | undefined
  | panicked
  | outOfFuel
  deriving DecidableEq, Repr

/-- Embedding of `ComputeResult<T> = Result<T, Undefined>`, widened with the
panic and fuel outcomes. -/
abbrev ComputeResult (α : Type) : Type := Except SimpErr α

/-- Embedding of `SimpleExpr` (src/simplify.rs).  `Constant` is the
arbitrary-precision rational kernel type, modelled as `ℚ` (its file is not
part of the sources; §3.1 of the spec: a rational in lowest terms with
positive denominator, which is exactly `ℚ`). -/
inductive SimpleExpr : Type where
  | Const (c : ℚ)
  | Symbol (s : String)
  | Product (xs : List SimpleExpr)
  | Sum (xs : List SimpleExpr)
  | Pow (base exp : SimpleExpr)
  | Factorial (x : SimpleExpr)
  | Function (name : String) (args : List SimpleExpr)

/-- Embedding of `BasicAlgebraicExpr` (src/lib.rs), including the `Neg`
variant used by the parser and by `cmp.rs`. -/
inductive BasicAlgebraicExpr : Type where
  | Const (c : ℚ)
  | Symbol (s : String)
  | Product (xs : List BasicAlgebraicExpr)
  | Sum (xs : List BasicAlgebraicExpr)
  | Pow (base exp : BasicAlgebraicExpr)
  | Neg (x : BasicAlgebraicExpr)
  | Factorial (x : BasicAlgebraicExpr)
  | Function (name : String) (args : List BasicAlgebraicExpr)

mutual

/-- Structural size of a simple expression (list elements weighted, list
spines free); used as the fuel bound for the canonical order. -/
def esize : SimpleExpr → Nat
  | .Const _ => 1
  | .Symbol _ => 1
  | .Product xs => 1 + esizeList xs
  | .Sum xs => 1 + esizeList xs
  | .Pow b e => 1 + esize b + esize e
  | .Factorial x => 1 + esize x
  | .Function _ args => 1 + esizeList args

/-- Sum of `esize` over a list. -/
def esizeList : List SimpleExpr → Nat
  | [] => 0
  | x :: xs => esize x + esizeList xs

end

mutual

/-- Structural equality test on simple expressions, the embedding of the
derived `PartialEq` used by `==` in the Rust sources. -/
def beq : SimpleExpr → SimpleExpr → Bool
  | .Const a, .Const b => a = b
  | .Symbol a, .Symbol b => a = b
  | .Product xs, .Product ys => beqList xs ys
  | .Sum xs, .Sum ys => beqList xs ys
  | .Pow a1 a2, .Pow b1 b2 => beq a1 b1 && beq a2 b2
  | .Factorial a, .Factorial b => beq a b
  | .Function n1 a1, .Function n2 a2 => n1 = n2 && beqList a1 a2
  | _, _ => false

/-- Pointwise structural equality of expression lists. -/
def beqList : List SimpleExpr → List SimpleExpr → Bool
  | [], [] => true
  | x :: xs, y :: ys => beq x y && beqList xs ys
  | _, _ => false

end

/-- Decidable structural equality, routed through `beq` (the derived
`PartialEq` of the source); the inline proof shows `beq` is equality. -/
instance instDecEqSimpleExpr : DecidableEq SimpleExpr := fun a b =>
  decidable_of_iff (beq a b = true) (by
    refine beq.induct (fun a b => beq a b = true ↔ a = b)
      (fun xs ys => beqList xs ys = true ↔ xs = ys)
      ?_ ?_ ?_ ?_ ?_ ?_ ?_ ?_ ?_ ?_ ?_ a b
    · intro a b; simp [beq]
    · intro a b; simp [beq]
    · intro xs ys ih; simp [beq, ih]
    · intro xs ys ih; simp [beq, ih]
    · intro a1 a2 b1 b2 ih1 ih2; simp [beq, ih1, ih2]
    · intro a b ih; simp [beq, ih]
    · intro n1 a1 n2 a2 ih; simp [beq, ih]
    · intro t x h1 h2 h3 h4 h5 h6 h7
      cases t <;> cases x <;>
        first
          | exact (h1 _ _ rfl rfl).elim
          | exact (h2 _ _ rfl rfl).elim
          | exact (h3 _ _ rfl rfl).elim
          | exact (h4 _ _ rfl rfl).elim
          | exact (h5 _ _ _ _ rfl rfl).elim
          | exact (h6 _ _ rfl rfl).elim
          | exact (h7 _ _ _ _ rfl rfl).elim
          | simp [beq]
    · simp [beqList]
    · intro x xs y ys ih1 ih2; simp [beqList, ih1, ih2]
    · intro t x h1 h2
      cases t <;> cases x <;>
        first
          | exact (h1 rfl rfl).elim
          | exact (h2 _ _ _ _ rfl rfl).elim
          | simp [beqList])

/-- Decidable equality of computation results. -/
instance instDecEqExcept {α : Type} [DecidableEq α] : DecidableEq (Except SimpErr α) :=
  fun a b =>
    match a, b with
    | .ok x, .ok y =>
      if h : x = y then .isTrue (by rw [h]) else .isFalse (fun hh => h (Except.ok.inj hh))
    | .error e1, .error e2 =>
      if h : e1 = e2 then .isTrue (by rw [h]) else .isFalse (fun hh => h (Except.error.inj hh))
    | .ok _, .error _ => .isFalse (fun hh => Except.noConfusion hh)
    | .error _, .ok _ => .isFalse (fun hh => Except.noConfusion hh)

/-- Modelled from the spec: the lazy rational-expression tree of §4.1
(`RationalExpr` in src/rational_expressions.rs, a file absent from the
sources): an unevaluated tree over constants with sum, product and integer
power nodes. -/
inductive RationalExpr : Type where
  | Const (c : ℚ)
  | Mul (xs : List RationalExpr)
  | Add (xs : List RationalExpr)
  | Pow (base : RationalExpr) (exp : ℤ)

mutual

/-- Modelled from the spec: `RationalExpr::simplify` evaluates the lazy tree
to a rational (`Frac`/`Num`) or to `Undefined` (`none`): division by zero,
`0^0` and `0^(-n)` are undefined, negative powers go via the reciprocal. -/
def RationalExpr.simplify : RationalExpr → Option ℚ
  | .Const c => some c
  | .Mul xs =>
    match RationalExpr.simplifyList xs with
    | some qs => some (qs.foldl (· * ·) 1)
    | none => none
  | .Add xs =>
    match RationalExpr.simplifyList xs with
    | some qs => some (qs.foldl (· + ·) 0)
    | none => none
  | .Pow b n =>
    match RationalExpr.simplify b with
    | some q => if q = 0 ∧ n ≤ 0 then none else some (q ^ n)
    | none => none

/-- Evaluate a list of lazy rational expressions, propagating `Undefined`. -/
def RationalExpr.simplifyList : List RationalExpr → Option (List ℚ)
  | [] => some []
  | x :: xs =>
    match RationalExpr.simplify x, RationalExpr.simplifyList xs with
    | some q, some qs => some (q :: qs)
    | _, _ => none

end

/-- Embedding of `SimplifiedRationalExpression → ComputeResult` from
src/helpers.rs: lift an evaluated rational to a constant simple expression,
or fail with `Undefined`. -/
def into_algebraic_expr : Option ℚ → ComputeResult SimpleExpr
  | some q => .ok (.Const q)
  | none => .error .undefined

/-- Lexicographic strict comparison of character lists (Rust's `Ord` on
strings, byte-wise, restricted to the ASCII names the tokenizer makes). -/
def lt_chars : List Char → List Char → Bool
  | [], [] => false
  | [], _ :: _ => true
  | _ :: _, [] => false
  | c :: cs, d :: ds => if c < d then true else if d < c then false else lt_chars cs ds

/-- Total order on strings used for symbol and function names, the
embedding of Rust's lexicographic `Ord for String` (`Equal` exactly on
equal strings). -/
def compare_str (s t : String) : Ordering :=
  if s = t then .eq else if lt_chars s.toList t.toList then .lt else .gt

mutual

/-- Fuelled embedding of `Ord for SimpleExpr` (src/cmp.rs).  Each recursive
call decrements the fuel; `cmp` below supplies fuel that provably suffices,
so the `.eq` returned at fuel 0 is never reached from `cmp`. -/
def cmpF : Nat → SimpleExpr → SimpleExpr → Ordering
  | 0, _, _ => .eq
  | f + 1, a, b =>
    if beq a b then .eq
    else
      match a, b with
      | .Const c1, .Const c2 => compare c1 c2
      | .Const _, _ => .lt
      | _, .Const _ => .gt
      | .Product xs, .Product ys => cmpListF f xs ys .eq
      | .Product xs, b' => cmpListF f xs [b'] .eq
      | a', .Product ys => (cmpListF f [a'] ys .eq).swap
      | .Pow a1 a2, .Pow b1 b2 =>
        match cmpF f a1 b1 with
        | .eq => cmpF f a2 b2
        | o => o
      | .Pow a1 a2, b' =>
        match cmpF f a1 b' with
        | .eq => cmpF f a2 (.Const 1)
        | o => o
      | a', .Pow b1 b2 =>
        match cmpF f a' b1 with
        | .eq => cmpF f (.Const 1) b2
        | o => o
      | .Sum xs, .Sum ys => cmpListF f xs ys .eq
      | .Sum xs, b' => cmpListF f xs [b'] .eq
      | a', .Sum ys => (cmpListF f [a'] ys .eq).swap
      | .Factorial a1, .Factorial b1 => cmpF f a1 b1
      | .Factorial a1, b' => if beq a1 b' then .gt else cmpF f a1 b'
      | a', .Factorial b1 => if beq b1 a' then .lt else cmpF f a' b1
      | .Function n1 args1, .Function n2 args2 =>
        if n1 = n2 then cmpArgsF f args1 args2 else compare_str n1 n2
      | .Function n1 _, .Symbol n2 => if n1 = n2 then .gt else compare_str n1 n2
      | .Symbol n1, .Function n2 _ => if n1 = n2 then .lt else compare_str n1 n2
      | .Symbol n1, .Symbol n2 => compare_str n1 n2

/-- Fuelled embedding of `cmp_list` (src/cmp.rs): the zipped pairs are
inspected in reverse, so the accumulator keeps the comparison of the last
unequal pair seen so far; on exhaustion ties are broken by length. -/
def cmpListF : Nat → List SimpleExpr → List SimpleExpr → Ordering → Ordering
  | 0, _, _, _ => .eq
  | f + 1, x :: xs, y :: ys, acc =>
    cmpListF f xs ys
      (match cmpF f x y with
       | .eq => acc
       | o => o)
  | _ + 1, xs, ys, acc =>
    match acc with
    | .eq => compare xs.length ys.length
    | o => o

/-- Fuelled embedding of the forward lexicographic comparison of function
argument vectors (`Vec::cmp` in the `Function` arm of src/cmp.rs). -/
def cmpArgsF : Nat → List SimpleExpr → List SimpleExpr → Ordering
  | 0, _, _ => .eq
  | _ + 1, [], [] => .eq
  | _ + 1, [], _ :: _ => .lt
  | _ + 1, _ :: _, [] => .gt
  | f + 1, x :: xs, y :: ys =>
    match cmpF f x y with
    | .eq => cmpArgsF f xs ys
    | o => o

end

/-- The canonical order of §4.2: `cmpF` run with enough fuel (the
comparison's call depth is strictly bounded by twice the combined size). -/
def cmpE (a b : SimpleExpr) : Ordering :=
  cmpF (2 * (esize a + esize b)) a b

/-- Insert an expression into a `cmp`-sorted list, keeping it sorted. -/
def insert_sorted (x : SimpleExpr) : List SimpleExpr → List SimpleExpr
  | [] => [x]
  | y :: ys => if cmpE x y = .gt then y :: insert_sorted x ys else x :: y :: ys

/-- Embedding of `Vec::sort_unstable` on simplified children: a sort by the
canonical order (insertion sort; the claims never sort distinct elements
that compare equal, so instability is immaterial). -/
def sort_exprs (l : List SimpleExpr) : List SimpleExpr :=
  l.foldr insert_sorted []

/-- Embedding of `SimpleExpr::is_constant`. -/
def SimpleExpr.is_constant : SimpleExpr → Bool
  | .Const _ => true
  | _ => false

/-- Constant payload of a `Const` node, if any. -/
def SimpleExpr.const_val : SimpleExpr → Option ℚ
  | .Const c => some c
  | _ => none

/-- Outcome of `SimpleExpr::split_product` as consumed by its callers:
`constSelf` is the `Err(self)` case for a bare constant, `panicked` the two
`unreachable!` branches. -/
inductive SplitResult : Type where
  | panicked
  | constSelf (e : SimpleExpr)
  | split (coeff : RationalExpr) (sym : SimpleExpr)

/-- Embedding of `SimpleExpr::split_product` (src/simplify.rs): split a
product into its leading constant prefix (as a lazy rational product) and
the remaining symbolic part; a bare constant is returned as `Err(self)`;
a product with no symbolic part hits `unreachable!`. -/
def split_product : SimpleExpr → SplitResult
  | .Const c => .constSelf (.Const c)
  | .Product xs =>
    let consts := xs.takeWhile SimpleExpr.is_constant
    let syms := xs.dropWhile SimpleExpr.is_constant
    match syms with
    | [] => .panicked
    | [s] =>
      match consts.mapM SimpleExpr.const_val with
      | some qs => .split (.Mul (qs.map RationalExpr.Const)) s
      | none => .panicked
    | s1 :: s2 :: rest =>
      match consts.mapM SimpleExpr.const_val with
      | some qs => .split (.Mul (qs.map RationalExpr.Const)) (.Product (s1 :: s2 :: rest))
      | none => .panicked
  | e => .split (.Const 1) e

/-- Embedding of `SimpleExpr::base` (src/simplify.rs). -/
def SimpleExpr.base : SimpleExpr → Option SimpleExpr
  | .Pow b _ => some b
  | .Const _ => none
  | e => some e

/-- Embedding of `SimpleExpr::exponent` (src/simplify.rs). -/
def SimpleExpr.exponent : SimpleExpr → Option SimpleExpr
  | .Pow _ e => some e
  | .Const _ => none
  | _ => some (.Const 1)

/-- The two instances of the `Operation` trait (src/simplify/ops.rs). -/
inductive Op : Type where
  | sum
  | prod
  deriving DecidableEq, Repr

/-- `Operation::HAS_ABSORBING_ELEMENT`. -/
def Op.has_absorbing : Op → Bool
  | .prod => true
  | .sum => false

/-- `Operation::is_absorbing_element` (zero, for products only). -/
def Op.is_absorbing : Op → SimpleExpr → Bool
  | .prod, .Const n => n = 0
  | _, _ => false

/-- `Operation::identity`. -/
def Op.identity : Op → SimpleExpr
  | .prod => .Const 1
  | .sum => .Const 0

/-- `Operation::is_identity` on a constant. -/
def Op.is_identity : Op → ℚ → Bool
  | .prod, c => c = 1
  | .sum, c => c = 0

/-- `Operation::is_list`. -/
def Op.is_list : Op → SimpleExpr → Bool
  | .prod, .Product _ => true
  | .sum, .Sum _ => true
  | _, _ => false

/-- `Operation::try_extract_list`, with `none` standing for `Err(x)`. -/
def Op.try_extract_list : Op → SimpleExpr → Option (List SimpleExpr)
  | .prod, .Product xs => some xs
  | .sum, .Sum xs => some xs
  | _, _ => none

/-- `Operation::make_list`. -/
def Op.make_list : Op → List SimpleExpr → SimpleExpr
  | .prod, xs => .Product xs
  | .sum, xs => .Sum xs

/-- `Operation::extract_or_make_list`. -/
def Op.extract_or_make_list (op : Op) (x : SimpleExpr) : List SimpleExpr :=
  match op.try_extract_list x with
  | some l => l
  | none => [x]

/-- `Operation::do_constant`: binary constant arithmetic. -/
def Op.do_constant : Op → ℚ → ℚ → ℚ
  | .prod, x, y => x * y
  | .sum, x, y => x + y

mutual

/-- Fuelled embedding of `Operation::simplify_pair_collect`
(src/simplify/ops.rs): like-base power collection for products, like-term
coefficient collection for sums.  The sum instance calls `split_product`
with `.expect("must not be constant")`, so a bare constant argument
panics. -/
def simplify_pair_collect :
    Nat → Op → SimpleExpr → SimpleExpr → ComputeResult (Option (List SimpleExpr))
  | 0, _, _, _ => .error .outOfFuel
  | f + 1, .prod, a, b =>
    match SimpleExpr.base a, SimpleExpr.base b with
    | some ba, some bb =>
      if beq ba bb then
        match SimpleExpr.exponent a, SimpleExpr.exponent b with
        | some ea, some eb => do
          let expo ← op_simplify f .sum [ea, eb]
          let result ← simplify_power f ba expo
          match result with
          | .Const c => if c = 1 then pure (some []) else pure (some [result])
          | _ => pure (some [result])
        | _, _ => .error .panicked
      else pure none
    | _, _ => pure none
  | f + 1, .sum, a, b =>
    match split_product a, split_product b with
    | .split ra asym, .split rb bsym =>
      if beq asym bsym then do
        let s ← into_algebraic_expr (RationalExpr.simplify (.Add [ra, rb]))
        let inner ← simplify_pair f .prod s asym
        pure (some [SimpleExpr.Product inner])
      else pure none
    | _, _ => .error .panicked

/-- Fuelled embedding of `Operation::simplify_pair` (src/simplify/ops.rs).
Note the both-constants arm drops the folded constant exactly when it `is_one`,
for both operations. -/
def simplify_pair :
    Nat → Op → SimpleExpr → SimpleExpr → ComputeResult (List SimpleExpr)
  | 0, _, _, _ => .error .outOfFuel
  | f + 1, op, a, b =>
    if op.is_list a || op.is_list b then
      merge_into f op (op.extract_or_make_list a) (op.extract_or_make_list b)
    else
      match a, b with
      | .Const x, .Const y =>
        let r := op.do_constant x y
        if r = 1 then pure [] else pure [.Const r]
      | a', b' =>
        let idOther : Option SimpleExpr :=
          match a', b' with
          | .Const c, other => if op.is_identity c then some other else none
          | other, .Const c => if op.is_identity c then some other else none
          | _, _ => none
        match idOther with
        | some keep => pure [keep]
        | none => do
          match ← simplify_pair_collect f op a' b' with
          | some res => pure res
          | none => if cmpE b' a' = .lt then pure [b', a'] else pure [a', b']

/-- Fuelled embedding of `Operation::simplify_rec` (src/simplify/ops.rs):
a two-element list goes to `simplify_pair`; longer lists peel the head into
the merge; shorter lists fail the `assert!(v.len() > 2)` and panic. -/
def simplify_rec : Nat → Op → List SimpleExpr → ComputeResult (List SimpleExpr)
  | 0, _, _ => .error .outOfFuel
  | f + 1, op, list =>
    match list with
    | [a, b] => simplify_pair f op a b
    | x :: rest =>
      if rest.length ≥ 2 then merge_into f op (op.extract_or_make_list x) rest
      else .error .panicked
    | [] => .error .panicked

/-- Fuelled embedding of `Operation::simplify` (src/simplify/ops.rs):
absorbing sweep, singleton return, merge-reduce, wrap. -/
def op_simplify : Nat → Op → List SimpleExpr → ComputeResult SimpleExpr
  | 0, _, _ => .error .outOfFuel
  | f + 1, op, exprs =>
    if op.has_absorbing && exprs.any op.is_absorbing then pure (.Const 0)
    else
      match exprs with
      | [x] => pure x
      | _ => do
        let list ← simplify_rec f op exprs
        match list with
        | [] => pure op.identity
        | [x] => pure x
        | l => pure (op.make_list l)

/-- Fuelled embedding of `Operation::merge_into` (src/simplify/ops.rs),
returning the produced output segment.  On a two-element pair result the
larger element is re-inserted at the head of the side that owned the
smaller one. -/
def merge_into :
    Nat → Op → List SimpleExpr → List SimpleExpr → ComputeResult (List SimpleExpr)
  | 0, _, _, _ => .error .outOfFuel
  | f + 1, op, a, b =>
    match a, b with
    | a', [] => pure a'
    | [], b' => pure b'
    | a0 :: aRest, b0 :: bRest => do
      let simplified ← simplify_pair f op a0 b0
      match simplified with
      | [] => merge_into f op aRest bRest
      | [x] => do
        let rest ← merge_into f op aRest bRest
        pure (x :: rest)
      | [x, y] =>
        if cmpE a0 b0 = .gt then do
          let rest ← merge_into f op (y :: aRest) bRest
          pure (x :: rest)
        else do
          let rest ← merge_into f op aRest (y :: bRest)
          pure (x :: rest)
      | _ => .error .panicked

/-- Fuelled embedding of `Operation::simplify_entry` (src/simplify/ops.rs):
simplify every child, sort by the canonical order, dispatch. -/
def simplify_entry : Nat → Op → List BasicAlgebraicExpr → ComputeResult SimpleExpr
  | 0, _, _ => .error .outOfFuel
  | f + 1, op, exprs => do
    let simplified ← simplify_basic_list f exprs
    op_simplify f op (sort_exprs simplified)

/-- Simplify a list of basic expressions elementwise (the
`map(BasicAlgebraicExpr::simplify).collect::<Result<_, _>>()` step). -/
def simplify_basic_list :
    Nat → List BasicAlgebraicExpr → ComputeResult (List SimpleExpr)
  | 0, _ => .error .outOfFuel
  | _ + 1, [] => pure []
  | f + 1, x :: xs => do
    let v ← expr_simplify f x
    let vs ← simplify_basic_list f xs
    pure (v :: vs)

/-- Fuelled embedding of `BasicAlgebraicExpr::simplify_integer_power`
(src/simplify/ops.rs).  The final catch-all of the Rust `match` is
`todo!()`, i.e. a panic, reached by any base that is neither a constant nor
a power once the exponent is an integer other than 0 and 1. -/
def simplify_integer_power : Nat → SimpleExpr → ℤ → ComputeResult SimpleExpr
  | 0, _, _ => .error .outOfFuel
  | f + 1, base, n =>
    if n = 0 then pure (.Const 1)
    else if n = 1 then pure base
    else
      match base with
      | .Const c =>
        into_algebraic_expr (RationalExpr.simplify (.Pow (.Const c) n))
      | .Pow b e2 => do
        let expo ← op_simplify f .prod [.Const (n : ℚ), e2]
        match expo with
        | .Const m =>
          if m.den = 1 then simplify_integer_power f b m.num
          else pure (.Pow b expo)
        | _ => pure (.Pow b expo)
      | _ => .error .panicked

/-- Fuelled embedding of `BasicAlgebraicExpr::simplify_power`
(src/simplify/ops.rs): the zero-base branch tests only whether the constant
exponent is positive, the one-base branch returns 1, an integer constant
exponent dispatches to `simplify_integer_power`, anything else stays
structural. -/
def simplify_power : Nat → SimpleExpr → SimpleExpr → ComputeResult SimpleExpr
  | 0, _, _ => .error .outOfFuel
  | f + 1, base, exponent =>
    if beq base (.Const 0) then
      match exponent with
      | .Const i => if 0 < i then pure (.Const 0) else .error .undefined
      | _ => pure (.Pow base exponent)
    else if beq base (.Const 1) then pure (.Const 1)
    else
      match exponent with
      | .Const c =>
        if c.den = 1 then simplify_integer_power f base c.num
        else pure (.Pow base exponent)
      | _ => pure (.Pow base exponent)

/-- Fuelled embedding of `BasicAlgebraicExpr::simplify`
(src/simplify/ops.rs).  The catch-all arm of the Rust `match` is `todo!()`:
`Factorial`, `Function` (and `Neg`) panic. -/
def expr_simplify : Nat → BasicAlgebraicExpr → ComputeResult SimpleExpr
  | 0, _ => .error .outOfFuel
  | f + 1, e =>
    match e with
    | .Const c => if c.den = 0 then .error .undefined else pure (.Const c)
    | .Symbol s => pure (.Symbol s)
    | .Pow b ex => do
      let sb ← expr_simplify f b
      let se ← expr_simplify f ex
      simplify_power f sb se
    | .Sum xs => simplify_entry f .sum xs
    | .Product xs => simplify_entry f .prod xs
    | _ => .error .panicked

end


mutual

/-- Structural equality test on basic expressions (the derived `PartialEq`
of src/lib.rs). -/
def beqB : BasicAlgebraicExpr → BasicAlgebraicExpr → Bool
  | .Const a, .Const b => a = b
  | .Symbol a, .Symbol b => a = b
  | .Product xs, .Product ys => beqBList xs ys
  | .Sum xs, .Sum ys => beqBList xs ys
  | .Pow a1 a2, .Pow b1 b2 => beqB a1 b1 && beqB a2 b2
  | .Neg a, .Neg b => beqB a b
  | .Factorial a, .Factorial b => beqB a b
  | .Function n1 a1, .Function n2 a2 => n1 = n2 && beqBList a1 a2
  | _, _ => false

/-- Pointwise structural equality of basic-expression lists. -/
def beqBList : List BasicAlgebraicExpr → List BasicAlgebraicExpr → Bool
  | [], [] => true
  | x :: xs, y :: ys => beqB x y && beqBList xs ys
  | _, _ => false

end

/-- Decidable structural equality for basic expressions, through `beqB`. -/
instance instDecEqBasicExpr : DecidableEq BasicAlgebraicExpr := fun a b =>
  decidable_of_iff (beqB a b = true) (by
    refine beqB.induct (fun a b => beqB a b = true ↔ a = b)
      (fun xs ys => beqBList xs ys = true ↔ xs = ys)
      ?_ ?_ ?_ ?_ ?_ ?_ ?_ ?_ ?_ ?_ ?_ ?_ a b
    · intro a b; simp [beqB]
    · intro a b; simp [beqB]
    · intro xs ys ih; simp [beqB, ih]
    · intro xs ys ih; simp [beqB, ih]
    · intro a1 a2 b1 b2 ih1 ih2; simp [beqB, ih1, ih2]
    · intro a b ih; simp [beqB, ih]
    · intro a b ih; simp [beqB, ih]
    · intro n1 a1 n2 a2 ih; simp [beqB, ih]
    · intro t x h1 h2 h3 h4 h5 h6 h7 h8
      cases t <;> cases x <;>
        first
          | exact (h1 _ _ rfl rfl).elim
          | exact (h2 _ _ rfl rfl).elim
          | exact (h3 _ _ rfl rfl).elim
          | exact (h4 _ _ rfl rfl).elim
          | exact (h5 _ _ _ _ rfl rfl).elim
          | exact (h6 _ _ rfl rfl).elim
          | exact (h7 _ _ rfl rfl).elim
          | exact (h8 _ _ _ _ rfl rfl).elim
          | simp [beqB]
    · simp [beqBList]
    · intro x xs y ys ih1 ih2; simp [beqBList, ih1, ih2]
    · intro t x h1 h2
      cases t <;> cases x <;>
        first
          | exact (h1 rfl rfl).elim
          | exact (h2 _ _ _ _ rfl rfl).elim
          | simp [beqBList])

/-- Embedding of the token type of the hand-rolled tokenizer
(src/parse/mod.rs). -/
inductive Token : Type where
  | Number (n : ℤ)
  | Symbol (s : String)
  | LeftBr
  | RightBr
  | LeftParen
  | RightParen
  | Add
  | Sub
  | Div
  | Mul
  | Pow
  | Factorial
  | Comma
  deriving DecidableEq, Repr

/-- Numeric value of a digit run, as `BigInt::from_str` computes it. -/
def digits_to_int (cs : List Char) : ℤ :=
  cs.foldl (fun acc c => acc * 10 + ((c.toNat - '0'.toNat : ℕ) : ℤ)) 0

/-- Fuelled embedding of `Tokenizer::scan_tokens` (src/parse/mod.rs):
whitespace is skipped, single-character operators map to their tokens,
digit runs to `Number`, ASCII-letter runs to `Symbol`; any other character
panics (`none`). -/
def scan_tokens : Nat → List Char → Option (List Token)
  | 0, _ => none
  | _ + 1, [] => some []
  | f + 1, c :: rest =>
    if c = ' ' then scan_tokens f rest
    else if c = '(' then (scan_tokens f rest).map (Token.LeftParen :: ·)
    else if c = ')' then (scan_tokens f rest).map (Token.RightParen :: ·)
    else if c = '[' then (scan_tokens f rest).map (Token.LeftBr :: ·)
    else if c = ']' then (scan_tokens f rest).map (Token.RightBr :: ·)
    else if c = '+' then (scan_tokens f rest).map (Token.Add :: ·)
    else if c = '-' then (scan_tokens f rest).map (Token.Sub :: ·)
    else if c = '*' then (scan_tokens f rest).map (Token.Mul :: ·)
    else if c = '/' then (scan_tokens f rest).map (Token.Div :: ·)
    else if c = '^' then (scan_tokens f rest).map (Token.Pow :: ·)
    else if c = '!' then (scan_tokens f rest).map (Token.Factorial :: ·)
    else if c = ',' then (scan_tokens f rest).map (Token.Comma :: ·)
    else if c.isDigit then
      (scan_tokens f (rest.dropWhile Char.isDigit)).map
        (Token.Number (digits_to_int (c :: rest.takeWhile Char.isDigit)) :: ·)
    else if c.isAlpha then
      (scan_tokens f (rest.dropWhile Char.isAlpha)).map
        (Token.Symbol (String.mk (c :: rest.takeWhile Char.isAlpha)) :: ·)
    else none

mutual

/-- Fuelled embedding of the `atom` production of `expression_parser`
(src/parse/mod.rs): integer literal, parenthesised expression, function
call `name[args]`, or identifier (longer identifiers become implicit
products of single-letter symbols).  The grammar built in that function
has no production for `Token::Pow`. -/
def parse_atom : Nat → List Token → Option (BasicAlgebraicExpr × List Token)
  | 0, _ => none
  | f + 1, ts =>
    match ts with
    | .Number n :: rest => some (.Const (n : ℚ), rest)
    | _ =>
      Option.orElse
        (match ts with
         | .LeftParen :: rest =>
           match parse_sum f rest with
           | some (e, .RightParen :: rest2) => some (e, rest2)
           | _ => none
         | _ => none)
        fun _ =>
          Option.orElse
            (match ts with
             | .Symbol s :: .LeftBr :: rest =>
               match parse_args f rest with
               | some (args, .RightBr :: rest2) => some (.Function s args, rest2)
               | _ => none
             | _ => none)
            fun _ =>
              match ts with
              | .Symbol s :: rest =>
                match s.toList with
                | [] => none
                | [_] => some (.Symbol s, rest)
                | cs => some (.Product (cs.map fun ch => .Symbol (String.mk [ch])), rest)
              | _ => none

/-- Argument list of a function call: expressions separated by commas with
a trailing comma tolerated (`separated_by(Comma).allow_trailing()`). -/
def parse_args : Nat → List Token → Option (List BasicAlgebraicExpr × List Token)
  | 0, _ => none
  | f + 1, ts =>
    match parse_sum f ts with
    | none => some ([], ts)
    | some (e, rest) => parse_args_rest f [e] rest

/-- Continuation of `parse_args` after at least one parsed argument. -/
def parse_args_rest :
    Nat → List BasicAlgebraicExpr → List Token →
      Option (List BasicAlgebraicExpr × List Token)
  | 0, _, _ => none
  | f + 1, acc, ts =>
    match ts with
    | .Comma :: rest =>
      match parse_sum f rest with
      | some (e, rest2) => parse_args_rest f (acc ++ [e]) rest2
      | none => some (acc, rest)
    | _ => some (acc, ts)

/-- The `unary` production: a run of prefix minus signs folded as `Neg`
around an atom. -/
def parse_unary : Nat → List Token → Option (BasicAlgebraicExpr × List Token)
  | 0, _ => none
  | f + 1, ts =>
    match ts with
    | .Sub :: rest => (parse_unary f rest).map fun (e, r) => (.Neg e, r)
    | _ => parse_atom f ts

/-- The `product` production: unary operands folded left through `*`
(binary `Product`) and `/` (lowered to multiplication by `Pow(_, -1)`). -/
def parse_product : Nat → List Token → Option (BasicAlgebraicExpr × List Token)
  | 0, _ => none
  | f + 1, ts =>
    match parse_unary f ts with
    | none => none
    | some (e, rest) => parse_product_loop f e rest

/-- Left fold of the `(* | /) unary` repetition. -/
def parse_product_loop :
    Nat → BasicAlgebraicExpr → List Token → Option (BasicAlgebraicExpr × List Token)
  | 0, _, _ => none
  | f + 1, acc, ts =>
    match ts with
    | .Mul :: rest =>
      match parse_unary f rest with
      | some (e, rest2) => parse_product_loop f (.Product [acc, e]) rest2
      | none => some (acc, ts)
    | .Div :: rest =>
      match parse_unary f rest with
      | some (e, rest2) =>
        parse_product_loop f (.Product [acc, .Pow e (.Const (-1))]) rest2
      | none => some (acc, ts)
    | _ => some (acc, ts)

/-- The `sum` production: products folded left through `+` (binary `Sum`)
and binary `-` (lowered to `Sum` with a negated right operand). -/
def parse_sum : Nat → List Token → Option (BasicAlgebraicExpr × List Token)
  | 0, _ => none
  | f + 1, ts =>
    match parse_product f ts with
    | none => none
    | some (e, rest) => parse_sum_loop f e rest

/-- Left fold of the `(+ | -) product` repetition. -/
def parse_sum_loop :
    Nat → BasicAlgebraicExpr → List Token → Option (BasicAlgebraicExpr × List Token)
  | 0, _, _ => none
  | f + 1, acc, ts =>
    match ts with
    | .Add :: rest =>
      match parse_product f rest with
      | some (e, rest2) => parse_sum_loop f (.Sum [acc, e]) rest2
      | none => some (acc, ts)
    | .Sub :: rest =>
      match parse_product f rest with
      | some (e, rest2) => parse_sum_loop f (.Sum [acc, .Neg e]) rest2
      | none => some (acc, ts)
    | _ => some (acc, ts)

end

/-- Fuelled embedding of `parse_into_expression` (src/parse/mod.rs):
tokenize, run the expression grammar, and require all input consumed
(`then_ignore(end())`); any failure collapses to `none`. -/
def parse_into_expression (f : Nat) (s : String) : Option BasicAlgebraicExpr :=
  match scan_tokens f s.toList with
  | none => none
  | some ts =>
    match parse_sum f ts with
    | some (e, []) => some e
    | _ => none

mutual

/-- Embedding of `latex_print` (src/print/mod.rs), with `none` standing for
the `unreachable!` panic on an empty product.  Literal braces of the LaTeX
output are written with hexadecimal escapes. -/
def latex_print : SimpleExpr → Option String
  | .Const c =>
    if c.den = 1 then some (toString c.num)
    else
      some ("\\frac \x7b " ++ toString c.num ++ " \x7d \x7b " ++
        toString (c.den : ℤ) ++ " \x7d")
  | .Symbol s => some s
  | .Product xs =>
    if xs.length = 0 then none
    else latex_print_sep " \\cdot " xs
  | .Sum xs => latex_print_sep " + " xs
  | .Pow b e =>
    match latex_print b, latex_print e with
    | some sb, some se => some ("(" ++ sb ++ ")^\x7b" ++ se ++ "\x7d")
    | _, _ => none
  | .Factorial x =>
    match latex_print x with
    | some s => some (s ++ "!")
    | none => none
  | .Function n args =>
    match latex_print_sep ", " args with
    | some s => some (n ++ "(" ++ s ++ ")")
    | none => none

/-- Children joined by a separator, as the printer loops do (separator
before every child but the first). -/
def latex_print_sep (sep : String) : List SimpleExpr → Option String
  | [] => some ""
  | [x] => latex_print x
  | x :: xs =>
    match latex_print x, latex_print_sep sep xs with
    | some s, some rest => some (s ++ sep ++ rest)
    | _, _ => none

end

mutual

/-- Whether an expression contains an empty `Product` node anywhere (the
only node on which the printer panics). -/
def has_empty_product : SimpleExpr → Bool
  | .Const _ => false
  | .Symbol _ => false
  | .Product xs => xs.isEmpty || has_empty_product_list xs
  | .Sum xs => has_empty_product_list xs
  | .Pow b e => has_empty_product b || has_empty_product e
  | .Factorial x => has_empty_product x
  | .Function _ args => has_empty_product_list args

/-- Any element of the list contains an empty product. -/
def has_empty_product_list : List SimpleExpr → Bool
  | [] => false
  | x :: xs => has_empty_product x || has_empty_product_list xs

end

mutual

/-- Expressions free of the unit embeddings that make the source order
conflate distinct values: every `Sum`/`Product` node has at least two
children and no `Pow` node has the constant 1 as exponent.  Canonical
simplifier output (§3.3, invariants 4 and 8) satisfies this. -/
def unit_free : SimpleExpr → Bool
  | .Const _ => true
  | .Symbol _ => true
  | .Product xs => 2 ≤ xs.length && unit_free_list xs
  | .Sum xs => 2 ≤ xs.length && unit_free_list xs
  | .Pow b e => !beq e (.Const 1) && (unit_free b && unit_free e)
  | .Factorial x => unit_free x
  | .Function _ args => unit_free_list args

/-- All elements are unit-free. -/
def unit_free_list : List SimpleExpr → Bool
  | [] => true
  | x :: xs => unit_free x && unit_free_list xs

end

/-- Structural equality test `beq` decides equality of simple expressions. -/
theorem beq_iff (a b : SimpleExpr) : beq a b = true ↔ a = b := by
  refine beq.induct (fun a b => beq a b = true ↔ a = b)
    (fun xs ys => beqList xs ys = true ↔ xs = ys)
    ?_ ?_ ?_ ?_ ?_ ?_ ?_ ?_ ?_ ?_ ?_ a b
  · intro a b; simp [beq]
  · intro a b; simp [beq]
  · intro xs ys ih; simp [beq, ih]
  · intro xs ys ih; simp [beq, ih]
  · intro a1 a2 b1 b2 ih1 ih2; simp [beq, ih1, ih2]
  · intro a b ih; simp [beq, ih]
  · intro n1 a1 n2 a2 ih; simp [beq, ih]
  · intro t x h1 h2 h3 h4 h5 h6 h7
    cases t <;> cases x <;>
      first
        | exact (h1 _ _ rfl rfl).elim
        | exact (h2 _ _ rfl rfl).elim
        | exact (h3 _ _ rfl rfl).elim
        | exact (h4 _ _ rfl rfl).elim
        | exact (h5 _ _ _ _ rfl rfl).elim
        | exact (h6 _ _ rfl rfl).elim
        | exact (h7 _ _ _ _ rfl rfl).elim
        | simp [beq]
  · simp [beqList]
  · intro x xs y ys ih1 ih2; simp [beqList, ih1, ih2]
  · intro t x h1 h2
    cases t <;> cases x <;>
      first
        | exact (h1 rfl rfl).elim
        | exact (h2 _ _ _ _ rfl rfl).elim
        | simp [beqList]

/-- Reflexivity of the structural equality test. -/
theorem beq_refl (a : SimpleExpr) : beq a a = true := (beq_iff a a).mpr rfl

/-- A falsified structural equality test means disequality. -/
theorem beq_false_ne {a b : SimpleExpr} (h : beq a b = false) : a ≠ b := by
  intro he
  rw [he, beq_refl] at h
  cases h

/-- Every expression has positive size. -/
theorem esize_pos (e : SimpleExpr) : 1 ≤ esize e := by
  cases e <;> (simp only [esize]; omega)

/-- The string comparison returns `Equal` exactly on equal strings. -/
theorem compare_str_eq_iff (s t : String) : compare_str s t = .eq ↔ s = t := by
  unfold compare_str
  split_ifs with h1 h2 <;> simp [h1]

/-- Swapping an ordering preserves being `Equal`. -/
theorem ordering_swap_eq_iff (o : Ordering) : o.swap = .eq ↔ o = .eq := by
  cases o <;> simp [Ordering.swap]

/-- C1: the claim fails on the code.  Simplifying the basic expression
`Sum[Const (-1), Const 1, Symbol x]` succeeds and returns the simple
expression `Sum[Const 0, Symbol x]`, whose `Sum` node contains a direct
`Const 0` child — the both-constants arm of `simplify_pair` drops the folded
constant only when it equals one, so the zero produced by `-1 + 1` stays in
the sum, violating §3.3 invariant 1. -/
theorem simplify_sum_keeps_const_zero_child :
    expr_simplify 32 (.Sum [.Const (-1), .Const 1, .Symbol "x"]) =
      .ok (.Sum [.Const 0, .Symbol "x"]) ∧
    SimpleExpr.Const 0 ∈ [SimpleExpr.Const 0, SimpleExpr.Symbol "x"] := by
  exact ⟨by decide, by decide⟩

/-- C2: the claim fails on the code.  A nonzero, non-identity constant
argument of a `Sum` pair falls through the constant arms of `simplify_pair`
into `Sum::simplify_pair_collect`, where `split_product().expect("must not
be constant")` panics: simplifying `Sum[Const 2, Symbol x]` (the input
`2 + x`) panics instead of returning a result. -/
theorem simplify_sum_constant_plus_symbol_panics :
    simplify_pair_collect 32 .sum (.Const 2) (.Symbol "x") = .error .panicked ∧
    expr_simplify 32 (.Sum [.Const 2, .Symbol "x"]) = .error .panicked := by
  exact ⟨by decide, by decide⟩

/-- C3: the claim fails on the code.  For a base that is neither a constant
nor a power, an integer exponent `n ≥ 2` reaches the `todo!()` arm of
`simplify_integer_power`, a panic: simplifying `Pow(x, 2)` panics, and so
does the claim's own example `(x*y)*(x*y)` (whose like-base collection
builds `Pow(x, 2)`), instead of returning `Product[Pow(x,2), Pow(y,2)]`. -/
theorem simplify_integer_power_todo_panics :
    simplify_integer_power 32 (.Symbol "x") 2 = .error .panicked ∧
    expr_simplify 32 (.Pow (.Symbol "x") (.Const 2)) = .error .panicked ∧
    expr_simplify 32 (.Product [.Product [.Symbol "x", .Symbol "y"],
      .Product [.Symbol "x", .Symbol "y"]]) = .error .panicked := by
  exact ⟨by decide, by decide, by decide⟩

/-- C4: the claim fails on the code.  The tokenizer does produce a `Pow`
token for `^`, but the expression grammar of `expression_parser` has no
production consuming it (atom, unary minus, product, sum only), so parsing
`"x ^ 2"` fails with unconsumed input rather than returning
`Pow(Symbol x, Const 2)`; multiplication at the same positions parses
fine. -/
theorem parse_power_input_fails :
    scan_tokens 32 ("x ^ 2".toList) = some [.Symbol "x", .Pow, .Number 2] ∧
    parse_into_expression 32 "x ^ 2" = none ∧
    parse_into_expression 32 "x * 2" = some (.Product [.Symbol "x", .Const 2]) := by
  exact ⟨by decide, by decide, by decide⟩

/-- C5 counterexample: the zero-base branch of `simplify_power` never tests
the constant exponent for integrality, so the non-integer positive constant
exponent 1/2 yields `Const 0` — not the structural `Pow(0, 1/2)` the claim
requires — and the non-integer negative constant exponent -1/2 yields
`Undefined` instead of a structural power. -/
theorem simplify_power_zero_base_nonint_counterexample :
    simplify_power 32 (.Const 0) (.Const (1/2)) = .ok (.Const 0) ∧
    SimpleExpr.Const 0 ≠ SimpleExpr.Pow (.Const 0) (.Const (1/2)) ∧
    simplify_power 32 (.Const 0) (.Const (-1/2)) = .error .undefined := by
  exact ⟨by decide, by decide, by decide⟩

/-- C5 as amended: for a simplified zero base, `simplify_power` returns 0
for every positive constant exponent (integer or not), fails with
`Undefined` for every non-positive constant exponent, and leaves
`Pow(0, e)` structural exactly when `e` is not a constant; in particular
`0 ^ 2` simplifies to `0`, `0 ^ 0` to `Undefined`, and `0 ^ opaque` stays
structural. -/
theorem simplify_power_zero_base_spec :
    (∀ (f : ℕ) (e : SimpleExpr),
      simplify_power (f + 1) (.Const 0) e =
        match e with
        | .Const c => if 0 < c then .ok (.Const 0) else .error .undefined
        | _ => .ok (.Pow (.Const 0) e)) ∧
    expr_simplify 32 (.Pow (.Const 0) (.Const 2)) = .ok (.Const 0) ∧
    expr_simplify 32 (.Pow (.Const 0) (.Const 0)) = .error .undefined ∧
    expr_simplify 32 (.Pow (.Const 0) (.Symbol "opaque")) =
      .ok (.Pow (.Const 0) (.Symbol "opaque")) := by
  refine ⟨fun f e => ?_, by decide, by decide, by decide⟩
  cases e <;> simp [simplify_power, beq, pure, Except.pure]

/-- C6: the claim fails on the code.  `simplify_pair` drops the folded
constant when it `is_one()` for both operations instead of when it equals
the operation's identity: for `Sum`, the constants 0 and 1 (summing to the
nonzero value 1) produce the empty list, while -1 and 1 (summing to the
identity 0) are kept as `Const 0`; consequently the whole expression
`0 + 1` simplifies to `0`. -/
theorem simplify_pair_drops_one_not_identity :
    simplify_pair 32 .sum (.Const 0) (.Const 1) = .ok [] ∧
    simplify_pair 32 .sum (.Const (-1)) (.Const 1) = .ok [.Const 0] ∧
    expr_simplify 32 (.Sum [.Const 0, .Const 1]) = .ok (.Const 0) := by
  exact ⟨by decide, by decide, by decide⟩

/-- C7: the claim fails on the code.  The `match` in
`BasicAlgebraicExpr::simplify` has arms only for `Const`, `Symbol`, `Pow`,
`Sum` and `Product`; `Factorial` and `Function` fall into the final
`todo!()` and panic instead of being preserved with simplified operands. -/
theorem simplify_factorial_function_panics :
    expr_simplify 32 (.Factorial (.Symbol "x")) = .error .panicked ∧
    expr_simplify 32 (.Function "f" [.Symbol "x"]) = .error .panicked := by
  exact ⟨by decide, by decide⟩

/-- C9: like-term collection over a shared symbol with integer
coefficients: `x + 2*x` simplifies to `3*x` and `(x + 2*x) + 3*x` to
`6*x`, exactly as the claim states. -/
theorem simplify_collects_like_terms :
    expr_simplify 32 (.Sum [.Symbol "x", .Product [.Const 2, .Symbol "x"]]) =
      .ok (.Product [.Const 3, .Symbol "x"]) ∧
    expr_simplify 32 (.Sum [.Sum [.Symbol "x", .Product [.Const 2, .Symbol "x"]],
      .Product [.Const 3, .Symbol "x"]]) = .ok (.Product [.Const 6, .Symbol "x"]) := by
  exact ⟨by decide, by decide⟩

/-- C8 counterexample: the source order conflates distinct expressions and
is not transitive.  `Pow(x, 1)` compares `Equal` to `Symbol x` though the
two are structurally different (so neither `a < b`, `a == b` nor `a > b`
holds), and `Factorial(Pow(x,1)) ~ Factorial(x) > x` while
`Factorial(Pow(x,1)) ~ x`, contradicting transitivity. -/
theorem cmp_eq_without_equality :
    cmpE (.Pow (.Symbol "x") (.Const 1)) (.Symbol "x") = .eq ∧
    SimpleExpr.Pow (.Symbol "x") (.Const 1) ≠ .Symbol "x" ∧
    cmpE (.Factorial (.Pow (.Symbol "x") (.Const 1))) (.Factorial (.Symbol "x")) = .eq ∧
    cmpE (.Factorial (.Symbol "x")) (.Symbol "x") = .gt ∧
    cmpE (.Factorial (.Pow (.Symbol "x") (.Const 1))) (.Symbol "x") = .eq := by
  exact ⟨by decide, by decide, by decide, by decide, by decide⟩

theorem cmp_canonical_aux (f : ℕ) :
    (∀ a b, 2 * (esize a + esize b) ≤ f → unit_free a = true → unit_free b = true →
      (cmpF f a b = .eq ↔ a = b)) ∧
    (∀ xs ys acc, 2 * (esizeList xs + esizeList ys) + 1 ≤ f →
      unit_free_list xs = true → unit_free_list ys = true →
      (cmpListF f xs ys acc = .eq ↔ (acc = .eq ∧ xs = ys))) ∧
    (∀ xs ys, 2 * (esizeList xs + esizeList ys) + 1 ≤ f →
      unit_free_list xs = true → unit_free_list ys = true →
      (cmpArgsF f xs ys = .eq ↔ xs = ys)) := by
  induction f with
  | zero =>
    exact ⟨fun a b hf _ _ => absurd hf (by have := esize_pos a; have := esize_pos b; omega),
           fun xs ys acc hf _ _ => absurd hf (by omega),
           fun xs ys hf _ _ => absurd hf (by omega)⟩
  | succ f ih =>
    obtain ⟨ihA, ihB, ihC⟩ := ih
    have hB : ∀ xs ys acc, 2 * (esizeList xs + esizeList ys) + 1 ≤ f + 1 →
        unit_free_list xs = true → unit_free_list ys = true →
        (cmpListF (f + 1) xs ys acc = .eq ↔ (acc = .eq ∧ xs = ys)) := by
      intro xs ys acc hf hux huy
      match xs, ys with
      | [], [] =>
        cases acc <;> simp [cmpListF, compare_eq_iff_eq]
      | [], y :: ys' =>
        cases acc <;> simp [cmpListF, compare_eq_iff_eq]
      | x :: xs', [] =>
        cases acc <;> simp [cmpListF, compare_eq_iff_eq]
      | x :: xs', y :: ys' =>
        simp only [unit_free_list, Bool.and_eq_true] at hux huy
        simp only [esizeList] at hf
        have hx1 := esize_pos x
        have hy1 := esize_pos y
        have hrec := ihB xs' ys'
          (match cmpF f x y with | .eq => acc | o => o)
          (by omega) hux.2 huy.2
        have hxy := ihA x y (by omega) hux.1 huy.1
        simp only [cmpListF, hrec]
        cases hcf : cmpF f x y with
        | eq =>
          have : x = y := hxy.mp hcf
          simp [this]
        | lt =>
          have hne : ¬ x = y := fun h => by simp [hxy.mpr h] at hcf
          simp [hne]
        | gt =>
          have hne : ¬ x = y := fun h => by simp [hxy.mpr h] at hcf
          simp [hne]
    have hC : ∀ xs ys, 2 * (esizeList xs + esizeList ys) + 1 ≤ f + 1 →
        unit_free_list xs = true → unit_free_list ys = true →
        (cmpArgsF (f + 1) xs ys = .eq ↔ xs = ys) := by
      intro xs ys hf hux huy
      match xs, ys with
      | [], [] => simp [cmpArgsF]
      | [], y :: ys' => simp [cmpArgsF]
      | x :: xs', [] => simp [cmpArgsF]
      | x :: xs', y :: ys' =>
        simp only [unit_free_list, Bool.and_eq_true] at hux huy
        simp only [esizeList] at hf
        have hx1 := esize_pos x
        have hy1 := esize_pos y
        have hrec := ihC xs' ys' (by omega) hux.2 huy.2
        have hxy := ihA x y (by omega) hux.1 huy.1
        simp only [cmpArgsF]
        cases hcf : cmpF f x y with
        | eq =>
          have : x = y := hxy.mp hcf
          simp [hrec, this]
        | lt =>
          have hne : ¬ x = y := fun h => by simp [hxy.mpr h] at hcf
          simp [hne]
        | gt =>
          have hne : ¬ x = y := fun h => by simp [hxy.mpr h] at hcf
          simp [hne]
    have hA : ∀ a b, 2 * (esize a + esize b) ≤ f + 1 → unit_free a = true → unit_free b = true →
        (cmpF (f + 1) a b = .eq ↔ a = b) := by
      have hsingR : ∀ (xs : List SimpleExpr) (b' : SimpleExpr),
          2 * (esizeList xs + esize b') + 1 ≤ f → 2 ≤ xs.length →
          unit_free_list xs = true → unit_free b' = true →
          ¬ cmpListF f xs [b'] .eq = .eq := by
        intro xs b' hb h2 hux hub' hcontra
        have hx := ((ihB xs [b'] .eq (by simp only [esizeList]; omega) hux
          (by simp [unit_free_list, hub'])).mp hcontra).2
        rw [hx] at h2
        simp at h2
      have hsingL : ∀ (a' : SimpleExpr) (ys : List SimpleExpr),
          2 * (esize a' + esizeList ys) + 1 ≤ f → 2 ≤ ys.length →
          unit_free a' = true → unit_free_list ys = true →
          ¬ cmpListF f [a'] ys .eq = .eq := by
        intro a' ys hb h2 hua' huy hcontra
        have hx := ((ihB [a'] ys .eq (by simp only [esizeList]; omega)
          (by simp [unit_free_list, hua']) huy).mp hcontra).2
        rw [← hx] at h2
        simp at h2
      have hpowR : ∀ a1 a2 b', 2 * ((1 + esize a1 + esize a2) + esize b') ≤ f + 1 →
          beq a2 (.Const 1) = false → unit_free a1 = true → unit_free a2 = true →
          unit_free b' = true →
          ¬ ((match cmpF f a1 b' with | .eq => cmpF f a2 (.Const 1) | o => o) = .eq) := by
        intro a1 a2 b' hb hne1 hu1 hu2 hub' hcontra
        have e1 := esize_pos a1
        have e2 := esize_pos a2
        have eb := esize_pos b'
        cases hc1 : cmpF f a1 b' with
        | eq =>
          rw [hc1] at hcontra
          have : a2 = .Const 1 :=
            (ihA a2 (.Const 1) (by simp [esize]; omega) hu2 (by simp [unit_free])).mp hcontra
          exact beq_false_ne hne1 this
        | lt => rw [hc1] at hcontra; cases hcontra
        | gt => rw [hc1] at hcontra; cases hcontra
      have hpowL : ∀ a' b1 b2, 2 * (esize a' + (1 + esize b1 + esize b2)) ≤ f + 1 →
          beq b2 (.Const 1) = false → unit_free a' = true → unit_free b1 = true →
          unit_free b2 = true →
          ¬ ((match cmpF f a' b1 with | .eq => cmpF f (.Const 1) b2 | o => o) = .eq) := by
        intro a' b1 b2 hb hne1 hua' hu1 hu2 hcontra
        have e1 := esize_pos b1
        have e2 := esize_pos b2
        have ea := esize_pos a'
        cases hc1 : cmpF f a' b1 with
        | eq =>
          rw [hc1] at hcontra
          have : (SimpleExpr.Const 1) = b2 :=
            (ihA (.Const 1) b2 (by simp [esize]; omega) (by simp [unit_free]) hu2).mp hcontra
          exact beq_false_ne hne1 this.symm
        | lt => rw [hc1] at hcontra; cases hcontra
        | gt => rw [hc1] at hcontra; cases hcontra
      intro a b hf hua hub
      cases hq : beq a b with
      | true =>
        have he := (beq_iff a b).mp hq
        subst he
        simp [cmpF, beq_refl]
      | false =>
        have hne := beq_false_ne hq
        cases a with
        | Const c1 =>
          cases b <;> simp [cmpF, hq, compare_eq_iff_eq]
        | Symbol s1 =>
          cases b with
          | Const c2 => simp [cmpF, hq]
          | Symbol s2 => simp [cmpF, hq, compare_str_eq_iff]
          | Product ys =>
            simp only [unit_free, Bool.and_eq_true, decide_eq_true_eq] at hub
            simp only [esize] at hf
            refine iff_of_false (fun h => ?_) (by simp)
            simp only [cmpF, hq, Bool.false_eq_true, if_false] at h
            rw [ordering_swap_eq_iff] at h
            exact hsingL (.Symbol s1) ys (by simp only [esize]; omega) hub.1 (by simp [unit_free]) hub.2 h
          | Sum ys =>
            simp only [unit_free, Bool.and_eq_true, decide_eq_true_eq] at hub
            simp only [esize] at hf
            refine iff_of_false (fun h => ?_) (by simp)
            simp only [cmpF, hq, Bool.false_eq_true, if_false] at h
            rw [ordering_swap_eq_iff] at h
            exact hsingL (.Symbol s1) ys (by simp only [esize]; omega) hub.1 (by simp [unit_free]) hub.2 h
          | Pow b1 b2 =>
            simp only [unit_free, Bool.and_eq_true, Bool.not_eq_true'] at hub
            simp only [esize] at hf
            refine iff_of_false (fun h => ?_) (by simp)
            simp only [cmpF, hq, Bool.false_eq_true, if_false] at h
            exact hpowL (.Symbol s1) b1 b2 (by simp only [esize]; omega) hub.1 (by simp [unit_free]) hub.2.1 hub.2.2 h
          | Factorial b1 =>
            simp only [unit_free] at hub
            simp only [esize] at hf
            have eb := esize_pos b1
            refine iff_of_false (fun h => ?_) (by simp)
            simp only [cmpF, hq, Bool.false_eq_true, if_false] at h
            cases hq2 : beq b1 (.Symbol s1) with
            | true => simp [hq2] at h
            | false =>
              simp only [hq2, Bool.false_eq_true, if_false] at h
              exact beq_false_ne hq2
                (((ihA (.Symbol s1) b1 (by simp only [esize]; omega) (by simp [unit_free]) hub).mp h).symm)
          | Function n2 args2 =>
            refine iff_of_false (fun h => ?_) (by simp)
            simp only [cmpF, hq, Bool.false_eq_true, if_false] at h
            by_cases hn : s1 = n2
            · simp [hn] at h
            · simp [hn, compare_str_eq_iff] at h
        | Product xs =>
          cases b with
          | Const c2 => simp [cmpF, hq]
          | Product ys =>
            simp only [unit_free, Bool.and_eq_true, decide_eq_true_eq] at hua hub
            simp only [esize] at hf
            rw [show cmpF (f + 1) (.Product xs) (.Product ys) = cmpListF f xs ys .eq from by
              simp [cmpF, hq]]
            rw [ihB xs ys .eq (by omega) hua.2 hub.2]
            simp
          | Symbol s2 =>
            simp only [unit_free, Bool.and_eq_true, decide_eq_true_eq] at hua
            simp only [esize] at hf
            refine iff_of_false (fun h => ?_) (by simp)
            simp only [cmpF, hq, Bool.false_eq_true, if_false] at h
            exact hsingR xs (.Symbol s2) (by simp only [esize]; omega) hua.1 hua.2 (by simp [unit_free]) h
          | Sum ys =>
            simp only [unit_free, Bool.and_eq_true, decide_eq_true_eq] at hua
            simp only [esize] at hf
            refine iff_of_false (fun h => ?_) (by simp)
            simp only [cmpF, hq, Bool.false_eq_true, if_false] at h
            exact hsingR xs (.Sum ys) (by simp only [esize]; omega) hua.1 hua.2 hub h
          | Pow b1 b2 =>
            simp only [unit_free, Bool.and_eq_true, decide_eq_true_eq] at hua
            simp only [esize] at hf
            refine iff_of_false (fun h => ?_) (by simp)
            simp only [cmpF, hq, Bool.false_eq_true, if_false] at h
            exact hsingR xs (.Pow b1 b2) (by simp only [esize]; omega) hua.1 hua.2 hub h
          | Factorial b1 =>
            simp only [unit_free, Bool.and_eq_true, decide_eq_true_eq] at hua
            simp only [esize] at hf
            refine iff_of_false (fun h => ?_) (by simp)
            simp only [cmpF, hq, Bool.false_eq_true, if_false] at h
            exact hsingR xs (.Factorial b1) (by simp only [esize]; omega) hua.1 hua.2 hub h
          | Function n2 args2 =>
            simp only [unit_free, Bool.and_eq_true, decide_eq_true_eq] at hua
            simp only [esize] at hf
            refine iff_of_false (fun h => ?_) (by simp)
            simp only [cmpF, hq, Bool.false_eq_true, if_false] at h
            exact hsingR xs (.Function n2 args2) (by simp only [esize]; omega) hua.1 hua.2 hub h
        | Sum xs =>
          cases b with
          | Const c2 => simp [cmpF, hq]
          | Product ys =>
            simp only [unit_free, Bool.and_eq_true, decide_eq_true_eq] at hub
            simp only [esize] at hf
            refine iff_of_false (fun h => ?_) (by simp)
            simp only [cmpF, hq, Bool.false_eq_true, if_false] at h
            rw [ordering_swap_eq_iff] at h
            exact hsingL (.Sum xs) ys (by simp only [esize]; omega) hub.1 hua hub.2 h
          | Pow b1 b2 =>
            simp only [unit_free, Bool.and_eq_true, Bool.not_eq_true'] at hub
            simp only [esize] at hf
            refine iff_of_false (fun h => ?_) (by simp)
            simp only [cmpF, hq, Bool.false_eq_true, if_false] at h
            exact hpowL (.Sum xs) b1 b2 (by simp only [esize]; omega) hub.1 hua hub.2.1 hub.2.2 h
          | Sum ys =>
            simp only [unit_free, Bool.and_eq_true, decide_eq_true_eq] at hua hub
            simp only [esize] at hf
            rw [show cmpF (f + 1) (.Sum xs) (.Sum ys) = cmpListF f xs ys .eq from by
              simp [cmpF, hq]]
            rw [ihB xs ys .eq (by omega) hua.2 hub.2]
            simp
          | Symbol s2 =>
            simp only [unit_free, Bool.and_eq_true, decide_eq_true_eq] at hua
            simp only [esize] at hf
            refine iff_of_false (fun h => ?_) (by simp)
            simp only [cmpF, hq, Bool.false_eq_true, if_false] at h
            exact hsingR xs (.Symbol s2) (by simp only [esize]; omega) hua.1 hua.2 (by simp [unit_free]) h
          | Factorial b1 =>
            simp only [unit_free, Bool.and_eq_true, decide_eq_true_eq] at hua
            simp only [esize] at hf
            refine iff_of_false (fun h => ?_) (by simp)
            simp only [cmpF, hq, Bool.false_eq_true, if_false] at h
            exact hsingR xs (.Factorial b1) (by simp only [esize]; omega) hua.1 hua.2 hub h
          | Function n2 args2 =>
            simp only [unit_free, Bool.and_eq_true, decide_eq_true_eq] at hua
            simp only [esize] at hf
            refine iff_of_false (fun h => ?_) (by simp)
            simp only [cmpF, hq, Bool.false_eq_true, if_false] at h
            exact hsingR xs (.Function n2 args2) (by simp only [esize]; omega) hua.1 hua.2 hub h
        | Pow a1 a2 =>
          cases b with
          | Const c2 => simp [cmpF, hq]
          | Product ys =>
            simp only [unit_free, Bool.and_eq_true, decide_eq_true_eq] at hub
            simp only [esize] at hf
            refine iff_of_false (fun h => ?_) (by simp)
            simp only [cmpF, hq, Bool.false_eq_true, if_false] at h
            rw [ordering_swap_eq_iff] at h
            exact hsingL (.Pow a1 a2) ys (by simp only [esize]; omega) hub.1 hua hub.2 h
          | Pow b1 b2 =>
            simp only [unit_free, Bool.and_eq_true, Bool.not_eq_true'] at hua hub
            simp only [esize] at hf
            have e2 := esize_pos a2
            have e4 := esize_pos b2
            rw [show cmpF (f + 1) (.Pow a1 a2) (.Pow b1 b2) =
                (match cmpF f a1 b1 with
                 | .eq => cmpF f a2 b2
                 | o => o) from by simp [cmpF, hq]]
            cases hc1 : cmpF f a1 b1 with
            | eq =>
              have h1 : a1 = b1 := (ihA a1 b1 (by omega) hua.2.1 hub.2.1).mp hc1
              rw [ihA a2 b2 (by omega) hua.2.2 hub.2.2]
              simp [h1]
            | lt =>
              have hne1 : ¬ a1 = b1 := fun h =>
                by simp [(ihA a1 b1 (by omega) hua.2.1 hub.2.1).mpr h] at hc1
              exact iff_of_false (by simp) (by simp [hne1])
            | gt =>
              have hne1 : ¬ a1 = b1 := fun h =>
                by simp [(ihA a1 b1 (by omega) hua.2.1 hub.2.1).mpr h] at hc1
              exact iff_of_false (by simp) (by simp [hne1])
          | Symbol s2 =>
            simp only [unit_free, Bool.and_eq_true, Bool.not_eq_true'] at hua
            simp only [esize] at hf
            refine iff_of_false (fun h => ?_) (by simp)
            simp only [cmpF, hq, Bool.false_eq_true, if_false] at h
            exact hpowR a1 a2 (.Symbol s2) (by simp only [esize]; omega) hua.1 hua.2.1 hua.2.2 (by simp [unit_free]) h
          | Sum ys =>
            simp only [unit_free, Bool.and_eq_true, Bool.not_eq_true'] at hua
            simp only [esize] at hf
            refine iff_of_false (fun h => ?_) (by simp)
            simp only [cmpF, hq, Bool.false_eq_true, if_false] at h
            exact hpowR a1 a2 (.Sum ys) (by simp only [esize]; omega) hua.1 hua.2.1 hua.2.2 hub h
          | Factorial b1 =>
            simp only [unit_free, Bool.and_eq_true, Bool.not_eq_true'] at hua
            simp only [esize] at hf
            refine iff_of_false (fun h => ?_) (by simp)
            simp only [cmpF, hq, Bool.false_eq_true, if_false] at h
            exact hpowR a1 a2 (.Factorial b1) (by simp only [esize]; omega) hua.1 hua.2.1 hua.2.2 hub h
          | Function n2 args2 =>
            simp only [unit_free, Bool.and_eq_true, Bool.not_eq_true'] at hua
            simp only [esize] at hf
            refine iff_of_false (fun h => ?_) (by simp)
            simp only [cmpF, hq, Bool.false_eq_true, if_false] at h
            exact hpowR a1 a2 (.Function n2 args2) (by simp only [esize]; omega) hua.1 hua.2.1 hua.2.2 hub h
        | Factorial a1 =>
          cases b with
          | Const c2 => simp [cmpF, hq]
          | Product ys =>
            simp only [unit_free, Bool.and_eq_true, decide_eq_true_eq] at hub
            simp only [esize] at hf
            refine iff_of_false (fun h => ?_) (by simp)
            simp only [cmpF, hq, Bool.false_eq_true, if_false] at h
            rw [ordering_swap_eq_iff] at h
            exact hsingL (.Factorial a1) ys (by simp only [esize]; omega) hub.1 hua hub.2 h
          | Pow b1 b2 =>
            simp only [unit_free, Bool.and_eq_true, Bool.not_eq_true'] at hub
            simp only [esize] at hf
            refine iff_of_false (fun h => ?_) (by simp)
            simp only [cmpF, hq, Bool.false_eq_true, if_false] at h
            exact hpowL (.Factorial a1) b1 b2 (by simp only [esize]; omega) hub.1 hua hub.2.1 hub.2.2 h
          | Sum ys =>
            simp only [unit_free, Bool.and_eq_true, decide_eq_true_eq] at hub
            simp only [esize] at hf
            refine iff_of_false (fun h => ?_) (by simp)
            simp only [cmpF, hq, Bool.false_eq_true, if_false] at h
            rw [ordering_swap_eq_iff] at h
            exact hsingL (.Factorial a1) ys (by simp only [esize]; omega) hub.1 hua hub.2 h
          | Factorial b1 =>
            simp only [unit_free] at hua hub
            simp only [esize] at hf
            rw [show cmpF (f + 1) (.Factorial a1) (.Factorial b1) = cmpF f a1 b1 from by
              simp [cmpF, hq]]
            rw [ihA a1 b1 (by omega) hua hub]
            simp
          | Symbol s2 =>
            simp only [unit_free] at hua
            simp only [esize] at hf
            have ea := esize_pos a1
            refine iff_of_false (fun h => ?_) (by simp)
            simp only [cmpF, hq, Bool.false_eq_true, if_false] at h
            cases hq2 : beq a1 (.Symbol s2) with
            | true => simp [hq2] at h
            | false =>
              simp only [hq2, Bool.false_eq_true, if_false] at h
              exact beq_false_ne hq2
                ((ihA a1 (.Symbol s2) (by simp only [esize]; omega) hua (by simp [unit_free])).mp h)
          | Function n2 args2 =>
            simp only [unit_free] at hua
            simp only [esize] at hf
            have ea := esize_pos a1
            refine iff_of_false (fun h => ?_) (by simp)
            simp only [cmpF, hq, Bool.false_eq_true, if_false] at h
            cases hq2 : beq a1 (.Function n2 args2) with
            | true => simp [hq2] at h
            | false =>
              simp only [hq2, Bool.false_eq_true, if_false] at h
              exact beq_false_ne hq2
                ((ihA a1 (.Function n2 args2) (by simp only [esize]; omega) hua hub).mp h)
        | Function n1 args1 =>
          cases b with
          | Const c2 => simp [cmpF, hq]
          | Product ys =>
            simp only [unit_free, Bool.and_eq_true, decide_eq_true_eq] at hub
            simp only [esize] at hf
            refine iff_of_false (fun h => ?_) (by simp)
            simp only [cmpF, hq, Bool.false_eq_true, if_false] at h
            rw [ordering_swap_eq_iff] at h
            exact hsingL (.Function n1 args1) ys (by simp only [esize]; omega) hub.1 hua hub.2 h
          | Pow b1 b2 =>
            simp only [unit_free, Bool.and_eq_true, Bool.not_eq_true'] at hub
            simp only [esize] at hf
            refine iff_of_false (fun h => ?_) (by simp)
            simp only [cmpF, hq, Bool.false_eq_true, if_false] at h
            exact hpowL (.Function n1 args1) b1 b2 (by simp only [esize]; omega) hub.1 hua hub.2.1 hub.2.2 h
          | Sum ys =>
            simp only [unit_free, Bool.and_eq_true, decide_eq_true_eq] at hub
            simp only [esize] at hf
            refine iff_of_false (fun h => ?_) (by simp)
            simp only [cmpF, hq, Bool.false_eq_true, if_false] at h
            rw [ordering_swap_eq_iff] at h
            exact hsingL (.Function n1 args1) ys (by simp only [esize]; omega) hub.1 hua hub.2 h
          | Factorial b1 =>
            simp only [unit_free] at hub
            simp only [esize] at hf
            have eb := esize_pos b1
            refine iff_of_false (fun h => ?_) (by simp)
            simp only [cmpF, hq, Bool.false_eq_true, if_false] at h
            cases hq2 : beq b1 (.Function n1 args1) with
            | true => simp [hq2] at h
            | false =>
              simp only [hq2, Bool.false_eq_true, if_false] at h
              exact beq_false_ne hq2
                (((ihA (.Function n1 args1) b1 (by simp only [esize]; omega) hua hub).mp h).symm)
          | Symbol s2 =>
            refine iff_of_false (fun h => ?_) (by simp)
            simp only [cmpF, hq, Bool.false_eq_true, if_false] at h
            by_cases hn : n1 = s2
            · simp [hn] at h
            · simp [hn, compare_str_eq_iff] at h
          | Function n2 args2 =>
            simp only [unit_free] at hua hub
            simp only [esize] at hf
            by_cases hn : n1 = n2
            · subst hn
              rw [show cmpF (f + 1) (.Function n1 args1) (.Function n1 args2) =
                  cmpArgsF f args1 args2 from by simp [cmpF, hq]]
              rw [ihC args1 args2 (by omega) hua hub]
              simp
            · refine iff_of_false (fun h => ?_) (by simp [hn])
              simp only [cmpF, hq, Bool.false_eq_true, if_false] at h
              simp only [hn, if_false] at h
              simp [compare_str_eq_iff, hn] at h
    exact ⟨hA, hB, hC⟩

/-- C8 as amended: on unit-free simple expressions (every `Sum`/`Product`
node has at least two children and no `Pow` node has exponent `Const 1` —
true of all canonical simplifier output by §3.3 invariants 4 and 8), the
canonical order returns `Equal` exactly on structurally equal expressions,
and every comparison returns exactly one of `Less`, `Equal`, `Greater`.
On expressions with unit embeddings (`Pow(x,1)`, singleton lists) the
equality reflection and transitivity fail, per the counterexample. -/
theorem cmp_eq_iff_eq_on_unit_free (a b : SimpleExpr)
    (ha : unit_free a = true) (hb : unit_free b = true) :
    (cmpE a b = .eq ↔ a = b) ∧
    (cmpE a b = .lt ∨ cmpE a b = .eq ∨ cmpE a b = .gt) := by
  refine ⟨?_, by cases cmpE a b <;> simp⟩
  exact (cmp_canonical_aux (2 * (esize a + esize b))).1 a b le_rfl ha hb

/-- C8 witness: the amended order theorem applied at the unit-free
expressions `Pow(x, 2)` and `y`. -/
theorem cmp_eq_iff_eq_on_unit_free_witness :
    (cmpE (.Pow (.Symbol "x") (.Const 2)) (.Symbol "y") = .eq ↔
      SimpleExpr.Pow (.Symbol "x") (.Const 2) = .Symbol "y") ∧
    (cmpE (.Pow (.Symbol "x") (.Const 2)) (.Symbol "y") = .lt ∨
      cmpE (.Pow (.Symbol "x") (.Const 2)) (.Symbol "y") = .eq ∨
      cmpE (.Pow (.Symbol "x") (.Const 2)) (.Symbol "y") = .gt) :=
  cmp_eq_iff_eq_on_unit_free (.Pow (.Symbol "x") (.Const 2)) (.Symbol "y")
    (by decide) (by decide)

/-- C10: the LaTeX printer is total on `Sum` nodes of every arity — the
empty sum prints as the empty string — and across all node kinds the
printer panics exactly on expressions containing an empty `Product` node
(the `unreachable!` in the product arm), nowhere else. -/
theorem latex_print_total_on_sums :
    latex_print (.Sum []) = some "" ∧
    ∀ e : SimpleExpr, (latex_print e = none ↔ has_empty_product e = true) := by
  refine ⟨by decide, fun e => ?_⟩
  refine latex_print.induct (fun e => latex_print e = none ↔ has_empty_product e = true)
    (fun sep xs => latex_print_sep sep xs = none ↔ has_empty_product_list xs = true)
    ?_ ?_ ?_ ?_ ?_ ?_ ?_ ?_ ?_ ?_ ?_ ?_ ?_ ?_ ?_ ?_ e
  · intro c h; simp [latex_print, has_empty_product, h]
  · intro c h; simp [latex_print, has_empty_product, h]
  · intro s; simp [latex_print, has_empty_product]
  · intro xs h
    have hx : xs = [] := List.length_eq_zero.mp h
    subst hx
    simp [latex_print, has_empty_product]
  · intro xs h ih
    cases xs with
    | nil => exact absurd rfl h
    | cons x xs' => simpa [latex_print, has_empty_product] using ih
  · intro xs ih
    simpa [latex_print, has_empty_product] using ih
  · intro b e sb se hse hsb ihb ihe
    simp [latex_print, hsb, hse, has_empty_product, ← ihb, ← ihe]
  · intro b e hfail ihb ihe
    cases hb2 : latex_print b with
    | none => simp [latex_print, hb2, has_empty_product, ihb.mp hb2]
    | some sb =>
      cases he2 : latex_print e with
      | none => simp [latex_print, hb2, he2, has_empty_product, ihe.mp he2]
      | some se => exact (hfail _ _ hb2 he2).elim
  · intro x s hs ih
    simp [latex_print, hs, has_empty_product, ← ih]
  · intro x hn ih
    simp [latex_print, hn, has_empty_product, ih.mp hn]
  · intro name args s hs ih
    simp [latex_print, hs, has_empty_product, ← ih]
  · intro name args hn ih
    simp [latex_print, hn, has_empty_product, ih.mp hn]
  · intro sep
    simp [latex_print_sep, has_empty_product_list]
  · intro sep x ih
    simpa [latex_print_sep, has_empty_product_list] using ih
  · intro sep x xs hne sb se hsse hsb ihx ihxs
    cases xs with
    | nil => exact (hne rfl).elim
    | cons y ys =>
      have h2 : has_empty_product_list (y :: ys) = false := by
        cases hc : has_empty_product_list (y :: ys) with
        | false => rfl
        | true => exact absurd (ihxs.mpr hc) (by simp [hsse])
      simp only [has_empty_product_list, Bool.or_eq_false_iff] at h2
      simp [latex_print_sep, hsb, hsse, has_empty_product_list, ← ihx, h2]
  · intro sep x xs hne hfail ihx ihxs
    cases xs with
    | nil => exact (hne rfl).elim
    | cons y ys =>
      cases hb2 : latex_print x with
      | none => simp [latex_print_sep, hb2, has_empty_product_list, ihx.mp hb2]
      | some sb =>
        cases hs2 : latex_print_sep sep (y :: ys) with
        | none =>
          have h2 := ihxs.mp hs2
          simp only [has_empty_product_list, Bool.or_eq_true] at h2
          simp [latex_print_sep, hb2, hs2, has_empty_product_list]
          tauto
        | some se => exact (hfail _ _ hb2 hs2).elim
